/-
A verification development for the panel-stack controller in
`source/UI.cpp` (class `UI`): a shallow embedding of its state and
operations, and theorems checking the documented behaviour.

Panels are referred to by their identity (the raw `Panel *` pointer
value), modelled as a natural number.  The stack is bottom-first:
`push_back` appends at the top.  Panel virtual methods (`Click`,
`FingerUp`, `TrapAllEvents`, ...) are oracles supplied as parameters,
since panels are outside this component.  SDL tick values are `Nat`
values in `[0, 2^32)` with wrapping subtraction made explicit.
-/
import Mathlib

namespace EndlessUI

/-- A panel identity: stands for the raw `Panel *` pointer value. -/
abbrev PanelId := Nat

/-- The fields of class `UI` used by UI.cpp.  `toPush` holds
`shared_ptr` handles, which may be null (`none`).  `uiLog` is ghost
instrumentation recording the panel ids on which `SetUI(this)` has been
invoked, in call order; it changes the behaviour of nothing. -/
structure UIState where
  stack : List PanelId
  toPush : List (Option PanelId)
  toPop : List PanelId
  isDone : Bool
  canSave : Bool
  zoneFingerId : Int
  panelFingerId : Int
  lastTap : Nat
  uiLog : List PanelId
  deriving Repr, DecidableEq

/-- UI::IsEmpty (UI.cpp:348): true when both the applied stack and the
pending-push queue are empty. -/
def IsEmpty (s : UIState) : Bool :=
  s.stack.isEmpty && s.toPush.isEmpty

/-- UI::IsDone (UI.cpp:337). -/
def IsDone (s : UIState) : Bool :=
  s.isDone

/-- UI::Reset (UI.cpp:287): clear the stack and both queues and clear
the done flag.  No other field is written. -/
def Reset (s : UIState) : UIState :=
  { s with stack := [], toPush := [], toPop := [], isDone := false }

/-- The body of UI::Push on a non-null handle (UI.cpp:230):
`panel->SetUI(this)` (recorded in the ghost log) and then
`toPush.push_back(panel)`. -/
def pushValid (s : UIState) (p : PanelId) : UIState :=
  { s with uiLog := s.uiLog ++ [p], toPush := s.toPush ++ [some p] }

/-- UI::Push (UI.cpp:230).  On a null handle `panel->SetUI(this)`
dereferences null, undefined behaviour, modelled as `none`; Push itself
has no null guard. -/
def Push (s : UIState) (p : Option PanelId) : Option UIState :=
  match p with
  | none => none
  | some q => some (pushValid s q)

/-- UI::Pop (UI.cpp:241): enqueue one identity for removal. -/
def Pop (s : UIState) (p : PanelId) : UIState :=
  { s with toPop := s.toPop ++ [p] }

/-- The reverse-iterator loop of UI::PopThrough (UI.cpp:251), acting on
the top-first view of the stack: enqueue each panel walked over, and
stop right after enqueueing the named one. -/
def popThroughWalk (p : PanelId) : List PanelId → List PanelId
  | [] => []
  | x :: xs => x :: (if x = p then [] else popThroughWalk p xs)

/-- UI::PopThrough (UI.cpp:249). -/
def PopThrough (s : UIState) (p : PanelId) : UIState :=
  { s with toPop := s.toPop ++ popThroughWalk p s.stack.reverse }

/-- The inner loop of UI::PushOrPop for one pop request (UI.cpp:379):
scan the stack from `begin()` (the bottom) upward and erase the first
instance equal to the requested identity, then stop. -/
def eraseFirst : List PanelId → PanelId → List PanelId
  | [], _ => []
  | x :: xs, p => if x = p then xs else x :: eraseFirst xs p

/-- UI::PushOrPop (UI.cpp:367): append every non-null pending push to
the top of the stack and clear the push queue, then erase at most one
instance per pending pop identity and clear the pop queue. -/
def PushOrPop (s : UIState) : UIState :=
  { s with
    stack := s.toPop.foldl eraseFirst (s.stack ++ s.toPush.filterMap id)
    toPush := []
    toPop := [] }

/-- UI::StepAll (UI.cpp:190): apply the queued push/pop commands, then
step every panel bottom to top.  Returns the new state and the ids
whose `Step` was invoked, in invocation order. -/
def StepAll (s : UIState) : UIState × List PanelId :=
  (PushOrPop s, (PushOrPop s).stack)

/-- The downward scan of UI::DrawAll (UI.cpp:211) on the top-first view
of the stack: the panels to be drawn, top-first, stopping at (and
including) the first panel that reports itself full-screen. -/
def drawScan (fs : PanelId → Bool) : List PanelId → List PanelId
  | [] => []
  | x :: xs => x :: (if fs x then [] else drawScan fs xs)

/-- UI::DrawAll (UI.cpp:203): first clear every panel's zones (bottom
to top), then find the topmost full-screen panel and draw from it to
the top.  `fs` is the `IsFullScreen` oracle.  Returns the ids whose
`ClearZones` was invoked and the ids whose `Draw` was invoked, each in
invocation order. -/
def DrawAll (fs : PanelId → Bool) (s : UIState) : List PanelId × List PanelId :=
  (s.stack, (drawScan fs s.stack.reverse).reverse)

/-- A stack-mutation request a panel callback can issue re-entrantly
while an event is being dispatched: UI::Push with a non-null handle,
UI::Pop, or UI::PopThrough. -/
inductive Request where
  | push : PanelId → Request
  | pop : PanelId → Request
  | popThrough : PanelId → Request
  deriving Repr, DecidableEq

/-- Effect of one re-entrant request on the controller state. -/
def applyRequest (s : UIState) : Request → UIState
  | .push p => pushValid s p
  | .pop p => Pop s p
  | .popThrough p => PopThrough s p

/-- What one panel that took its turn in a dispatch walk observed:
its id, and the stack and pop queue at the moment of delivery. -/
structure Visit where
  pid : PanelId
  stackSeen : List PanelId
  toPopSeen : List PanelId
  deriving Repr, DecidableEq

/-- Behaviour of the panels during one dispatch, event-kind agnostic:
for a panel id and the controller state at its turn, whether the panel
reports the event handled, and the requests its callback issues, in
order; plus the `TrapAllEvents` flag of each panel. -/
structure PanelBeh where
  handle : PanelId → UIState → Bool × List Request
  trapAllEvents : PanelId → Bool

/-- The dispatch loop of UI::Handle (UI.cpp:38-179) over the top-first
view of the stack: skip panels counted in the live pop queue, give the
next panel its turn (its callbacks' requests are applied to the
queues), and stop once the event is handled or the panel traps all
events.  Returns the final state, the handled flag, and the per-turn
observations, top first. -/
def handleWalk (b : PanelBeh) : List PanelId → UIState → UIState × Bool × List Visit
  | [], s => (s, false, [])
  | p :: rest, s =>
    if p ∈ s.toPop then
      handleWalk b rest s
    else
      let hr := b.handle p s
      let s' := hr.2.foldl applyRequest s
      let v : Visit := ⟨p, s.stack, s.toPop⟩
      if hr.1 then (s', true, [v])
      else if b.trapAllEvents p then (s', false, [v])
      else
        let r := handleWalk b rest s'
        (r.1, r.2.1, v :: r.2.2)

/-- UI::Handle (UI.cpp:34): walk the stack from the top, then apply
the queued push/pop commands, and return whether the event was
handled. -/
def Handle (b : PanelBeh) (s : UIState) : UIState × Bool × List Visit :=
  ((PushOrPop (handleWalk b s.stack.reverse s).1),
    (handleWalk b s.stack.reverse s).2.1,
    (handleWalk b s.stack.reverse s).2.2)

/-- Results of the touch-related panel callbacks, as pure oracles: for
each panel id and arguments, whether that callback reports the event
handled. -/
structure TouchCalls where
  zoneMouseDown : PanelId → Int → Int → Bool
  hover : PanelId → Int → Int → Bool
  fingerDown : PanelId → Int → Int → Int → Bool
  click : PanelId → Int → Int → Nat → Bool
  zoneMouseUp : PanelId → Int → Int → Bool
  fingerUp : PanelId → Int → Int → Int → Bool
  release : PanelId → Int → Int → Bool
  trapAllEvents : PanelId → Bool

/-- Wrapping 32-bit subtraction, for `now - lastTap` on SDL tick
values (both arguments in `[0, 2^32)`). -/
def usub32 (a b : Nat) : Nat :=
  (a + (2 ^ 32 - b % 2 ^ 32)) % 2 ^ 32

/-- The click count of the generic-click fallback for a touch-down
(UI.cpp:105): 1 if more than 500 ms elapsed since the last tap, else
2. -/
def fallbackClicks (lastTap now : Nat) : Nat :=
  if 500 < usub32 now lastTap then 1 else 2

/-- One panel's turn for an SDL_FINGERDOWN event (UI.cpp:80-108):
zones first (on success remember this finger as the zone owner), then
hover plus a finger-down notification, then the generic click fallback
(on success remember this finger as the drag owner; the last tap time
is updated unconditionally on the fallback path).  Also returns the
click count delivered by the fallback, when it was reached. -/
def fingerDownStep (c : TouchCalls) (x y fid : Int) (now : Nat) (p : PanelId)
    (s : UIState) : Bool × UIState × Option Nat :=
  if c.zoneMouseDown p x y then
    (true, { s with zoneFingerId := fid }, none)
  else if c.fingerDown p x y fid then
    (true, s, none)
  else
    let n := fallbackClicks s.lastTap now
    let h := c.click p x y n
    (h, { s with
            panelFingerId := if h then fid else s.panelFingerId,
            lastTap := now }, some n)

/-- One panel's turn for an SDL_FINGERUP event (UI.cpp:127-148): a
zone release if this finger owns the zone interaction (clearing that
ownership whatever the result), then a finger-up notification, then a
generic release if this finger owns the drag (clearing that ownership
whatever the result). -/
def fingerUpStep (c : TouchCalls) (x y fid : Int) (p : PanelId)
    (s : UIState) : Bool × UIState :=
  let zr : Bool × UIState :=
    if s.zoneFingerId = fid then
      (c.zoneMouseUp p x y, { s with zoneFingerId := -1 })
    else (false, s)
  let h2 : Bool := if zr.1 then true else c.fingerUp p x y fid
  if h2 then (true, zr.2)
  else if zr.2.panelFingerId = fid then
    (c.release p x y, { zr.2 with panelFingerId := -1 })
  else (false, zr.2)

/-- The dispatch loop of UI::Handle for an SDL_FINGERUP event, over the
top-first view of the stack, with the pop-queue skip and the trap
check around each panel's turn. -/
def fingerUpWalk (c : TouchCalls) (x y fid : Int) :
    List PanelId → UIState → Bool × UIState
  | [], s => (false, s)
  | p :: rest, s =>
    if p ∈ s.toPop then fingerUpWalk c x y fid rest s
    else
      let r := fingerUpStep c x y fid p s
      if r.1 then (true, r.2)
      else if c.trapAllEvents p then (false, r.2)
      else fingerUpWalk c x y fid rest r.2

/-- UI::Handle on an SDL_FINGERUP event, including the final
PushOrPop. -/
def HandleFingerUp (c : TouchCalls) (x y fid : Int) (s : UIState) :
    Bool × UIState :=
  ((fingerUpWalk c x y fid s.stack.reverse s).1,
    PushOrPop (fingerUpWalk c x y fid s.stack.reverse s).2)

/-- The dispatch loop of UI::Handle for an SDL_FINGERDOWN event, over
the top-first view of the stack; also collects the click counts
delivered through the generic-click fallback, in delivery order. -/
def fingerDownWalk (c : TouchCalls) (x y fid : Int) (now : Nat) :
    List PanelId → UIState → Bool × UIState × List Nat
  | [], s => (false, s, [])
  | p :: rest, s =>
    if p ∈ s.toPop then fingerDownWalk c x y fid now rest s
    else
      let r := fingerDownStep c x y fid now p s
      if r.1 then (true, r.2.1, r.2.2.toList)
      else if c.trapAllEvents p then (false, r.2.1, r.2.2.toList)
      else
        let w := fingerDownWalk c x y fid now rest r.2.1
        (w.1, w.2.1, r.2.2.toList ++ w.2.2)

/-- UI::Handle on an SDL_FINGERDOWN event, including the final
PushOrPop; `now` is the SDL tick value read during dispatch. -/
def HandleFingerDown (c : TouchCalls) (x y fid : Int) (now : Nat) (s : UIState) :
    Bool × UIState × List Nat :=
  ((fingerDownWalk c x y fid now s.stack.reverse s).1,
    PushOrPop (fingerDownWalk c x y fid now s.stack.reverse s).2.1,
    (fingerDownWalk c x y fid now s.stack.reverse s).2.2)

/-- Every panel handle pending in the push queue, and every panel in
the applied stack, has already received `SetUI(this)`. -/
def UIWired (s : UIState) : Bool :=
  (s.toPush.filterMap id).all (· ∈ s.uiLog) && s.stack.all (· ∈ s.uiLog)

/-- A controller state with everything empty, the base for the concrete
states used below. -/
def baseState : UIState :=
  { stack := [], toPush := [], toPop := [], isDone := false, canSave := false,
    zoneFingerId := -1, panelFingerId := -1, lastTap := 0, uiLog := [] }

theorem eraseFirst_not_mem (l : List PanelId) (p : PanelId) (h : p ∉ l) :
    eraseFirst l p = l := by
  induction l with
  | nil => rfl
  | cons x xs ih =>
    simp only [List.mem_cons, not_or] at h
    simp [eraseFirst, h.1, Ne.symm h.1, ih h.2]

theorem eraseFirst_append_cons (a b : List PanelId) (p : PanelId) (h : p ∉ a) :
    eraseFirst (a ++ p :: b) p = a ++ b := by
  induction a with
  | nil => simp [eraseFirst]
  | cons x xs ih =>
    simp only [List.mem_cons, not_or] at h
    simp [eraseFirst, Ne.symm h.1, ih h.2]

theorem eraseFirst_eq_erase (l : List PanelId) (p : PanelId) :
    eraseFirst l p = l.erase p := by
  induction l with
  | nil => rfl
  | cons x xs ih =>
    by_cases hx : x = p
    · simp [eraseFirst, hx, List.erase_cons]
    · simp [eraseFirst, hx, List.erase_cons, ih]

/-- Erasing, one by one, each element of a permutation of a list
empties the list. -/
theorem foldl_eraseFirst_perm (m : List PanelId) (l : List PanelId)
    (h : m.Perm l) : List.foldl eraseFirst l m = [] := by
  induction m generalizing l with
  | nil =>
    have : l = [] := (List.perm_nil.mp h.symm)
    simp [this]
  | cons x m' ih =>
    have hm := (List.cons_perm_iff_perm_erase.mp h)
    simp only [List.foldl_cons]
    rw [eraseFirst_eq_erase]
    exact ih _ hm.2

theorem popThroughWalk_not_mem (p : PanelId) (l : List PanelId) (h : p ∉ l) :
    popThroughWalk p l = l := by
  induction l with
  | nil => rfl
  | cons x xs ih =>
    simp only [List.mem_cons, not_or] at h
    simp [popThroughWalk, Ne.symm h.1, ih h.2]

theorem popThroughWalk_append_cons (p : PanelId) (u v : List PanelId)
    (h : p ∉ u) : popThroughWalk p (u ++ p :: v) = u ++ [p] := by
  induction u with
  | nil => simp [popThroughWalk]
  | cons x xs ih =>
    simp only [List.mem_cons, not_or] at h
    simp [popThroughWalk, Ne.symm h.1, ih h.2]

/-- Folding the apply-step erase over the panels of a top-down walk
that ends at `p` removes exactly those panels, when no identity is
duplicated.  `l` is the list of panels above `p`, top first. -/
theorem foldl_eraseFirst_reversed (l : List PanelId) (a : List PanelId)
    (p : PanelId) (hpa : p ∉ a) (hpl : p ∉ l) (hla : ∀ x ∈ l, x ∉ a)
    (hnd : l.Nodup) :
    List.foldl eraseFirst (a ++ p :: l.reverse) (l ++ [p]) = a := by
  induction l with
  | nil =>
    simpa using eraseFirst_append_cons a [] p hpa
  | cons t l' ih =>
    simp only [List.mem_cons, not_or] at hpl
    have hta : t ∉ a := hla t (List.mem_cons_self t l')
    have htl : t ∉ l'.reverse := by
      simp [List.nodup_cons.mp hnd |>.1]
    have hstep : eraseFirst (a ++ p :: (l'.reverse ++ [t])) t
        = a ++ p :: l'.reverse := by
      have : a ++ p :: (l'.reverse ++ [t])
          = (a ++ p :: l'.reverse) ++ t :: [] := by simp
      rw [this, eraseFirst_append_cons]
      · simp
      · simp only [List.mem_append, List.mem_cons, not_or]
        exact ⟨hta, Ne.symm hpl.1, htl⟩
    simp only [List.reverse_cons, List.cons_append, List.foldl_cons, hstep]
    exact ih hpl.2 (fun x hx => hla x (List.mem_cons_of_mem t hx))
      (List.nodup_cons.mp hnd).2

/-- C1 state: a controller with live pointer-tracking state. -/
def sC1 : UIState :=
  { baseState with
      stack := [1], toPush := [some 2], toPop := [3],
      isDone := true, zoneFingerId := 5, panelFingerId := 7, lastTap := 900 }

/-- C1 counterexample: `Reset` clears the stack, the queues and the
done flag, but it leaves the zone-owning finger (here 5), the
drag-owning finger (here 7) and the last-tap timestamp (here 900)
exactly as they were, so the pointer-tracking fields are not cleared
by `Reset`. -/
theorem reset_pointer_cex :
    (Reset sC1).zoneFingerId = 5 ∧ (Reset sC1).panelFingerId = 7 ∧
    (Reset sC1).lastTap = 900 ∧ (5 : Int) ≠ -1 ∧ (7 : Int) ≠ -1 := by
  decide

/-- C1 (amended): after `Reset`, `IsEmpty` is true, `IsDone` is false,
and the stack and both mutation queues are empty; but the zone-owning
finger, the drag-owning finger and the last-tap timestamp are left
unchanged — `Reset` does not touch the pointer-tracking fields. -/
theorem reset_spec (s : UIState) :
    IsEmpty (Reset s) = true ∧ IsDone (Reset s) = false ∧
    (Reset s).stack = [] ∧ (Reset s).toPush = [] ∧ (Reset s).toPop = [] ∧
    (Reset s).zoneFingerId = s.zoneFingerId ∧
    (Reset s).panelFingerId = s.panelFingerId ∧
    (Reset s).lastTap = s.lastTap := by
  simp [IsEmpty, IsDone, Reset]

/-- C2 state: the same identity (5) at the bottom and at the top of
the stack, with one pop of 5 pending. -/
def sC2 : UIState :=
  { baseState with stack := [5, 6, 5], toPop := [5] }

/-- C2 counterexample: with stack `[5, 6, 5]` (bottom first) and a
pending pop of identity 5, the apply step produces `[6, 5]` — the
bottommost occurrence was erased — and not `[5, 6]`, which removing
the topmost occurrence would give. -/
theorem pop_erase_direction_cex :
    (PushOrPop sC2).stack = [6, 5] ∧ (PushOrPop sC2).stack ≠ [5, 6] := by
  decide

/-- C2 (amended): during the mutation-apply step each pending pop
identity is searched for from the bottom of the stack toward the top,
and at most one matching instance is erased; when the same panel
occurs more than once in the stack, the bottommost occurrence is the
one removed (any occurrences above it are untouched). -/
theorem pop_erases_lowest (s : UIState) (a b : List PanelId) (p : PanelId)
    (hpush : s.toPush = []) (hpop : s.toPop = [p])
    (hstack : s.stack = a ++ p :: b) (ha : p ∉ a) :
    (PushOrPop s).stack = a ++ b := by
  simp [PushOrPop, hpush, hpop, hstack, eraseFirst_append_cons a b p ha]

/-- C2 witness: the amended statement evaluated on the stack
`[5, 6, 5]` with a pending pop of 5. -/
theorem pop_erases_lowest_witness : (PushOrPop sC2).stack = [6, 5] :=
  pop_erases_lowest sC2 [] [6, 5] 5 rfl rfl rfl (by decide)

/-- C3 state: stack `[1, 2]` with nothing queued. -/
def sC3 : UIState := { baseState with stack := [1, 2] }

/-- C3 counterexample: panel 3 is absent from the stack `[1, 2]`, yet
`PopThrough(3)` followed by the apply step empties the whole stack
instead of leaving it untouched: the walk never finds the named panel,
so it enqueues every panel for removal. -/
theorem popThrough_absent_cex :
    (PushOrPop (PopThrough sC3 3)).stack = [] ∧
    (PushOrPop (PopThrough sC3 3)).stack ≠ [1, 2] := by
  decide

/-- C3 (amended): on a stack without duplicate identities and with
empty queues: if `P` is in the stack, `PopThrough(P)` enqueues exactly
`P` and every panel above it (top first), and after the apply step
those and only those panels are gone, the panels below `P` untouched;
if `P` is absent, the walk enqueues the entire stack, so the apply
step leaves the stack empty — nothing is left untouched. -/
theorem popThrough_spec (s : UIState) (p : PanelId)
    (hpush : s.toPush = []) (hpop : s.toPop = []) (hnd : s.stack.Nodup) :
    (∀ a b, s.stack = a ++ p :: b →
      (PopThrough s p).toPop = b.reverse ++ [p] ∧
      (PushOrPop (PopThrough s p)).stack = a) ∧
    (p ∉ s.stack →
      (PopThrough s p).toPop = s.stack.reverse ∧
      (PushOrPop (PopThrough s p)).stack = []) := by
  constructor
  · intro a b hstack
    have hnds := hnd
    rw [hstack] at hnds
    simp only [List.nodup_append, List.nodup_cons, List.disjoint_cons_right,
      List.mem_cons] at hnds
    have hpa : p ∉ a := hnds.2.2.1
    have hpb : p ∉ b := hnds.2.1.1
    have hba : ∀ x ∈ b, x ∉ a := fun x hx hxa => hnds.2.2.2 hxa hx
    have hndb : b.Nodup := hnds.2.1.2
    have hwalk : popThroughWalk p (b.reverse ++ p :: a.reverse) = b.reverse ++ [p] := by
      rw [popThroughWalk_append_cons]
      simpa using hpb
    constructor
    · simp [PopThrough, hpop, hstack, hwalk]
    · have hfold :
          List.foldl eraseFirst (a ++ p :: b) (b.reverse ++ [p]) = a := by
        have hb : b.reverse.reverse = b := by simp
        have := foldl_eraseFirst_reversed b.reverse a p hpa
          (by simpa using hpb) (fun x hx => hba x (by simpa using hx))
          (by simpa using hndb)
        rwa [hb] at this
      simp [PushOrPop, PopThrough, hpush, hpop, hstack, hwalk, hfold]
  · intro habs
    have hwalk : popThroughWalk p s.stack.reverse = s.stack.reverse :=
      popThroughWalk_not_mem p _ (by simpa using habs)
    refine ⟨by simp [PopThrough, hpop, hwalk], ?_⟩
    have hfold : List.foldl eraseFirst s.stack s.stack.reverse = [] :=
      foldl_eraseFirst_perm _ _ (List.reverse_perm s.stack)
    simp [PushOrPop, PopThrough, hpush, hpop, hwalk, hfold]

/-- C3 witness: the amended statement evaluated on the stack
`[1, 2, 3]` popping through panel 2 (result `[1]`), and on the stack
`[1, 2]` popping through the absent panel 9 (result `[]`). -/
theorem popThrough_spec_witness :
    (PushOrPop (PopThrough { baseState with stack := [1, 2, 3] } 2)).stack = [1] ∧
    (PushOrPop (PopThrough sC3 9)).stack = [] :=
  ⟨((popThrough_spec { baseState with stack := [1, 2, 3] } 2 rfl rfl
      (by decide)).1 [1] [3] rfl).2,
    ((popThrough_spec sC3 9 rfl rfl (by decide)).2 (by decide)).2⟩

theorem drawScan_all_false (fs : PanelId → Bool) (l : List PanelId)
    (h : ∀ x ∈ l, fs x = false) : drawScan fs l = l := by
  induction l with
  | nil => rfl
  | cons x xs ih =>
    simp [drawScan, h x (List.mem_cons_self x xs),
      ih (fun q hq => h q (List.mem_cons_of_mem x hq))]

theorem drawScan_append_true (fs : PanelId → Bool) (u v : List PanelId)
    (f : PanelId) (hu : ∀ x ∈ u, fs x = false) (hf : fs f = true) :
    drawScan fs (u ++ f :: v) = u ++ [f] := by
  induction u with
  | nil => simp [drawScan, hf]
  | cons x xs ih =>
    simp [drawScan, hu x (List.mem_cons_self x xs),
      ih (fun q hq => hu q (List.mem_cons_of_mem x hq))]

/-- C9: DrawAll clears the hit-test zones of every panel of the stack
(bottom to top), and the panels it draws are: the whole stack, bottom
to top, when no panel is full-screen; and exactly the highest
full-screen panel `f` together with the panels above it, bottom to
top, when `f` is full-screen and nothing above it is — so no panel
strictly below `f` is ever drawn. -/
theorem drawAll_spec (fs : PanelId → Bool) (s : UIState) :
    (DrawAll fs s).1 = s.stack ∧
    ((∀ x ∈ s.stack, fs x = false) → (DrawAll fs s).2 = s.stack) ∧
    (∀ a f b, s.stack = a ++ f :: b → fs f = true →
      (∀ x ∈ b, fs x = false) → (DrawAll fs s).2 = f :: b) := by
  refine ⟨rfl, ?_, ?_⟩
  · intro h
    have : drawScan fs s.stack.reverse = s.stack.reverse :=
      drawScan_all_false fs _ (fun x hx => h x (List.mem_reverse.mp hx))
    simp [DrawAll, this]
  · intro a f b hstack hf hb
    have hrev : s.stack.reverse = b.reverse ++ f :: a.reverse := by
      simp [hstack]
    have hscan : drawScan fs (b.reverse ++ f :: a.reverse) = b.reverse ++ [f] :=
      drawScan_append_true fs _ _ f
        (fun x hx => hb x (List.mem_reverse.mp hx)) hf
    simp [DrawAll, hrev, hscan]

/-- C9 state: stack `[1, 2, 3]`, with panel 2 full-screen. -/
def sC9 : UIState := { baseState with stack := [1, 2, 3] }

/-- C9 witness: with panel 2 the highest full-screen panel of
`[1, 2, 3]`, the zones of all three panels are cleared and exactly
`[2, 3]` is drawn, bottom to top. -/
theorem drawAll_spec_witness :
    (DrawAll (fun q => q == 2) sC9).1 = sC9.stack ∧
    (DrawAll (fun q => q == 2) sC9).2 = [2, 3] :=
  ⟨(drawAll_spec (fun q => q == 2) sC9).1,
    (drawAll_spec (fun q => q == 2) sC9).2.2 [1] 2 [3] rfl (by decide)
      (by decide)⟩

theorem mem_foldl_eraseFirst (tp : List PanelId) (l : List PanelId)
    (x : PanelId) (h : x ∈ List.foldl eraseFirst l tp) : x ∈ l := by
  induction tp generalizing l with
  | nil => simpa using h
  | cons t tp' ih =>
    have hx : x ∈ eraseFirst l t := ih (eraseFirst l t) h
    rw [eraseFirst_eq_erase] at hx
    exact List.mem_of_mem_erase hx

/-- The pids of the panels that took a turn in a dispatch walk all come
from the walked list. -/
theorem handleWalk_visit_mem (b : PanelBeh) (ps : List PanelId)
    (s : UIState) (v : Visit) (hv : v ∈ (handleWalk b ps s).2.2) :
    v.pid ∈ ps := by
  induction ps generalizing s with
  | nil => simp [handleWalk] at hv
  | cons p rest ih =>
    simp only [handleWalk] at hv
    by_cases hp : p ∈ s.toPop
    · rw [if_pos hp] at hv
      exact List.mem_cons_of_mem _ (ih _ hv)
    · rw [if_neg hp] at hv
      by_cases h1 : (b.handle p s).1
      · rw [if_pos h1] at hv
        simp only [List.mem_singleton] at hv
        simp [hv]
      · rw [if_neg h1] at hv
        by_cases h2 : b.trapAllEvents p
        · rw [if_pos h2] at hv
          simp only [List.mem_singleton] at hv
          simp [hv]
        · rw [if_neg h2] at hv
          simp only [List.mem_cons] at hv
          rcases hv with hv | hv
          · simp [hv]
          · exact List.mem_cons_of_mem _ (ih _ hv)

/-- C10 state: panel 1 on the stack and panel 2 pending, both already
wired to the controller. -/
def sC10 : UIState :=
  { baseState with stack := [1], toPush := [some 2], uiLog := [1, 2] }

/-- C10: Push on a null handle is undefined behaviour (`SetUI` is
invoked unconditionally, with no null guard in Push itself); Push on a
non-null handle invokes `SetUI` and then appends the handle to the
pending-push queue; the apply step is where null handles are skipped;
and the wiring invariant — every queued or stacked panel has received
`SetUI` — is preserved by Push and by the apply step, so every panel a
dispatch walk can deliver an event to has already received `SetUI`. -/
theorem push_wires_ui (s : UIState) (hw : UIWired s = true) :
    Push s none = none ∧
    (∀ p, Push s (some p) =
      some { s with uiLog := s.uiLog ++ [p], toPush := s.toPush ++ [some p] }) ∧
    (PushOrPop { s with toPush := s.toPush ++ [none] }).stack
      = (PushOrPop s).stack ∧
    (∀ p, UIWired (pushValid s p) = true) ∧
    UIWired (PushOrPop s) = true ∧
    (∀ b v, v ∈ (Handle b s).2.2 → v.pid ∈ s.uiLog) := by
  simp only [UIWired, Bool.and_eq_true, List.all_eq_true] at hw
  refine ⟨rfl, fun p => rfl, ?_, ?_, ?_, ?_⟩
  · simp [PushOrPop, List.filterMap_append]
  · intro p
    simp only [UIWired, pushValid, Bool.and_eq_true, List.all_eq_true]
    constructor
    · intro q hq
      rw [List.filterMap_append] at hq
      rcases List.mem_append.mp hq with hq | hq
      · simpa using Or.inl (by simpa using hw.1 q hq)
      · simp only [List.filterMap_cons, id, List.filterMap_nil] at hq
        simp only [List.mem_singleton] at hq
        simp [hq]
    · intro q hq
      simpa using Or.inl (by simpa using hw.2 q hq)
  · simp only [UIWired, PushOrPop, Bool.and_eq_true, List.all_eq_true]
    refine ⟨by simp, ?_⟩
    intro q hq
    simp only [decide_eq_true_eq] at hq ⊢
    have hq' := mem_foldl_eraseFirst _ _ _ hq
    rcases List.mem_append.mp hq' with hq' | hq'
    · simpa using hw.2 q (by simpa using hq')
    · simpa using hw.1 q hq'
  · intro b v hv
    have hmem := handleWalk_visit_mem b s.stack.reverse s v hv
    have : v.pid ∈ s.stack := List.mem_reverse.mp hmem
    simpa using hw.2 v.pid (by simpa using this)

/-- C10 witness: the statement evaluated on a wired controller state:
pushing a null handle is undefined, and the wiring invariant holds
after the apply step. -/
theorem push_wires_ui_witness :
    Push sC10 none = none ∧ UIWired (PushOrPop sC10) = true :=
  ⟨(push_wires_ui sC10 (by decide)).1,
    (push_wires_ui sC10 (by decide)).2.2.2.2.1⟩

theorem applyRequest_stack (s : UIState) (r : Request) :
    (applyRequest s r).stack = s.stack := by
  cases r <;> rfl

theorem foldl_applyRequest_stack (rs : List Request) (s : UIState) :
    (rs.foldl applyRequest s).stack = s.stack := by
  induction rs generalizing s with
  | nil => rfl
  | cons r rs' ih => rw [List.foldl_cons, ih, applyRequest_stack]

/-- Along a dispatch walk the applied stack never changes, and every
panel that takes a turn observes the same stack the walk started
with. -/
theorem handleWalk_stack_eq (b : PanelBeh) (ps : List PanelId)
    (s : UIState) :
    (handleWalk b ps s).1.stack = s.stack ∧
    ∀ v ∈ (handleWalk b ps s).2.2, v.stackSeen = s.stack := by
  induction ps generalizing s with
  | nil => simp [handleWalk]
  | cons p rest ih =>
    simp only [handleWalk]
    by_cases hp : p ∈ s.toPop
    · rw [if_pos hp]
      exact ih s
    · rw [if_neg hp]
      have hs' := foldl_applyRequest_stack (b.handle p s).2 s
      by_cases h1 : (b.handle p s).1
      · rw [if_pos h1]
        exact ⟨hs', by simp⟩
      · rw [if_neg h1]
        by_cases h2 : b.trapAllEvents p
        · rw [if_pos h2]
          exact ⟨hs', by simp⟩
        · rw [if_neg h2]
          refine ⟨(ih _).1.trans hs', ?_⟩
          intro v hv
          simp only [List.mem_cons] at hv
          rcases hv with hv | hv
          · simp [hv]
          · exact ((ih _).2 v hv).trans hs'

/-- C6: for every panel behaviour (so for every sequence of Push, Pop
and PopThrough requests issued by panel callbacks while Handle walks
the stack), the stack seen by each panel visited during the call
equals the stack at the start of the call; the stack is still
unchanged when the walk ends, the call's result state is the apply
step run on the walk's final queue state, and StepAll steps exactly
the panels of the post-apply stack. -/
theorem dispatch_defers_mutations (b : PanelBeh) (s : UIState) :
    (∀ v ∈ (Handle b s).2.2, v.stackSeen = s.stack) ∧
    (handleWalk b s.stack.reverse s).1.stack = s.stack ∧
    (Handle b s).1 = PushOrPop (handleWalk b s.stack.reverse s).1 ∧
    (StepAll s).2 = (PushOrPop s).stack := by
  refine ⟨?_, (handleWalk_stack_eq b s.stack.reverse s).1, rfl, rfl⟩
  intro v hv
  exact (handleWalk_stack_eq b s.stack.reverse s).2 v hv

/-- C6/C7/C8 behaviour: every panel leaves the event unhandled and asks
to pop panel 3 (which sits at the bottom of the stack). -/
def bC678 : PanelBeh :=
  { handle := fun _ _ => (false, [Request.pop 3]),
    trapAllEvents := fun q => q == 2 }

/-- C6/C7/C8 state: stack `[3, 1, 2]`, bottom first, nothing queued. -/
def sC678 : UIState := { baseState with stack := [3, 1, 2] }

/-- C6 witness: the statement evaluated on the stack `[3, 1, 2]` where
every visited panel requests `Pop(3)`: the first visited panel (the
top panel, 2) still saw the full starting stack. -/
theorem dispatch_defers_mutations_witness :
    (Visit.mk 2 [3, 1, 2] []).stackSeen = sC678.stack :=
  (dispatch_defers_mutations bC678 sC678).1 (Visit.mk 2 [3, 1, 2] [])
    (by decide)

/-- Whatever a dispatch walk delivers, the receiving panel was not in
the pending-pop queue at the moment of its turn. -/
theorem handleWalk_no_popped (b : PanelBeh) (ps : List PanelId)
    (s : UIState) :
    ∀ v ∈ (handleWalk b ps s).2.2, v.pid ∉ v.toPopSeen := by
  induction ps generalizing s with
  | nil => simp [handleWalk]
  | cons p rest ih =>
    simp only [handleWalk]
    by_cases hp : p ∈ s.toPop
    · rw [if_pos hp]
      exact ih s
    · rw [if_neg hp]
      by_cases h1 : (b.handle p s).1
      · rw [if_pos h1]
        intro v hv
        simp only [List.mem_singleton] at hv
        simp [hv, hp]
      · rw [if_neg h1]
        by_cases h2 : b.trapAllEvents p
        · rw [if_pos h2]
          intro v hv
          simp only [List.mem_singleton] at hv
          simp [hv, hp]
        · rw [if_neg h2]
          intro v hv
          simp only [List.mem_cons] at hv
          rcases hv with hv | hv
          · simp [hv, hp]
          · exact ih _ v hv

/-- C7: for every dispatch call, every panel that received the event
records a pending-pop queue, observed at the moment the walk reached
it, that does not contain its own identity: a panel whose identity is
in the live pending-pop queue when the walk reaches it is skipped and
gets no event delivery, even though it is still in the stack. -/
theorem pending_pop_suppresses_delivery (b : PanelBeh) (s : UIState) :
    ∀ v ∈ (Handle b s).2.2, v.pid ∉ v.toPopSeen := by
  intro v hv
  exact handleWalk_no_popped b s.stack.reverse s v hv

/-- C7 behaviour: every panel leaves the event unhandled, requests
`Pop(3)`, and no panel traps. -/
def bC7 : PanelBeh :=
  { handle := fun _ _ => (false, [Request.pop 3]),
    trapAllEvents := fun _ => false }

/-- C7 witness: on the stack `[3, 1, 2]` where every visited panel
requests `Pop(3)`: panel 1 took its turn while the pop queue held
`[3]`, and indeed its own identity is not in that queue (the walk
skipped panel 3 itself, which never appears among the visits). -/
theorem pending_pop_suppresses_delivery_witness :
    (Visit.mk 1 [3, 1, 2] [3]).pid ∉ (Visit.mk 1 [3, 1, 2] [3]).toPopSeen :=
  pending_pop_suppresses_delivery bC7 sC678 (Visit.mk 1 [3, 1, 2] [3])
    (by decide)

/-- In a dispatch walk the visited panels form a top-down subsequence
of the walked list, and a panel that traps all events can only take
the last turn of the walk: nothing below it is visited. -/
theorem handleWalk_trap_last (b : PanelBeh) (ps : List PanelId)
    (s : UIState) :
    ((handleWalk b ps s).2.2.map Visit.pid).Sublist ps ∧
    ∀ (i : Fin (handleWalk b ps s).2.2.length),
      b.trapAllEvents ((handleWalk b ps s).2.2.get i).pid = true →
      i.val + 1 = (handleWalk b ps s).2.2.length := by
  induction ps generalizing s with
  | nil => exact ⟨by simp [handleWalk], fun i => absurd i.isLt (by simp [handleWalk])⟩
  | cons p rest ih =>
    simp only [handleWalk]
    by_cases hp : p ∈ s.toPop
    · rw [if_pos hp]
      exact ⟨(ih s).1.cons p, (ih s).2⟩
    · rw [if_neg hp]
      by_cases h1 : (b.handle p s).1
      · rw [if_pos h1]
        refine ⟨by simp, ?_⟩
        intro i _
        have hlt := i.isLt
        simp at hlt ⊢
      · rw [if_neg h1]
        by_cases h2 : b.trapAllEvents p
        · rw [if_pos h2]
          refine ⟨by simp, ?_⟩
          intro i _
          have hlt := i.isLt
          simp at hlt ⊢
        · rw [if_neg h2]
          refine ⟨?_, ?_⟩
          · simpa using
              ((ih (List.foldl applyRequest s (b.handle p s).2)).1).cons₂ p
          · intro i htrap
            rcases i with ⟨iv, hlt⟩
            simp only [List.length_cons] at hlt
            cases iv with
            | zero =>
              simp only [List.get_cons_zero] at htrap
              exact absurd htrap (by simp [h2])
            | succ j =>
              have hj : j < (handleWalk b rest
                  (List.foldl applyRequest s (b.handle p s).2)).2.2.length :=
                Nat.lt_of_succ_lt_succ hlt
              have htrap2 : b.trapAllEvents
                  (((handleWalk b rest
                    (List.foldl applyRequest s (b.handle p s).2)).2.2.get
                      ⟨j, hj⟩).pid) = true := by
                simpa [List.get_cons_succ] using htrap
              have hres := (ih (List.foldl applyRequest s
                (b.handle p s).2)).2 ⟨j, hj⟩ htrap2
              simp only [List.length_cons] at hres ⊢
              omega

/-- C8: for every dispatch call, the panels that take a turn form a
top-down subsequence of the stack, and any visited panel that declares
it traps all events takes the last turn of the call — so no panel
strictly below it in the stack receives the event for the remainder of
that call. -/
theorem trap_stops_descent (b : PanelBeh) (s : UIState) :
    ((Handle b s).2.2.map Visit.pid).Sublist s.stack.reverse ∧
    ∀ (i : Fin (Handle b s).2.2.length),
      b.trapAllEvents ((Handle b s).2.2.get i).pid = true →
      i.val + 1 = (Handle b s).2.2.length :=
  handleWalk_trap_last b s.stack.reverse s

/-- C8 witness: on the stack `[3, 1, 2]` with panel 2 trapping all
events, panel 2's turn (index 0 of the visits) is also the last turn:
the walk delivered the event to exactly one panel. -/
theorem trap_stops_descent_witness :
    (0 : Nat) + 1 = (Handle bC678 sC678).2.2.length :=
  (trap_stops_descent bC678 sC678).2 ⟨0, by decide⟩ (by decide)

theorem pushOrPop_pointer (s : UIState) :
    (PushOrPop s).zoneFingerId = s.zoneFingerId ∧
    (PushOrPop s).panelFingerId = s.panelFingerId ∧
    (PushOrPop s).lastTap = s.lastTap :=
  ⟨rfl, rfl, rfl⟩

/-- A finger-up turn of a panel when this finger owns neither the zone
interaction nor the drag: only the finger-up notification runs, and the
state is untouched. -/
theorem fingerUpStep_not_owner (c : TouchCalls) (x y fid : Int)
    (p : PanelId) (s : UIState)
    (hz : s.zoneFingerId ≠ fid) (hp : s.panelFingerId ≠ fid) :
    fingerUpStep c x y fid p s = (c.fingerUp p x y fid, s) := by
  cases h : c.fingerUp p x y fid <;> simp [fingerUpStep, hz, hp, h]

/-- A finger-up walk never alters the ownership of fingers other than
the event's own. -/
theorem fingerUpWalk_not_owner (c : TouchCalls) (x y fid : Int)
    (l : List PanelId) (s : UIState)
    (hz : s.zoneFingerId ≠ fid) (hp : s.panelFingerId ≠ fid) :
    (fingerUpWalk c x y fid l s).2.zoneFingerId = s.zoneFingerId ∧
    (fingerUpWalk c x y fid l s).2.panelFingerId = s.panelFingerId := by
  induction l generalizing s with
  | nil => simp [fingerUpWalk]
  | cons p rest ih =>
    simp only [fingerUpWalk]
    by_cases hmem : p ∈ s.toPop
    · rw [if_pos hmem]
      exact ih s hz hp
    · rw [if_neg hmem, fingerUpStep_not_owner c x y fid p s hz hp]
      cases hfu : c.fingerUp p x y fid with
      | true => simp
      | false =>
        cases htr : c.trapAllEvents p with
        | true => simp [htr]
        | false => simpa [htr] using ih s hz hp

/-- The pointer-tracking outcome of a finger-up walk is decided
entirely at the first panel that takes its turn: the zone-owning
finger, when it is this finger, is always cleared there; the
drag-owning finger, when it is this finger, is cleared exactly when
the zone-release and finger-up attempts at that panel both left the
event unhandled. -/
theorem fingerUpWalk_cons_first (c : TouchCalls) (x y fid : Int)
    (p : PanelId) (l' : List PanelId) (s : UIState)
    (hmem : p ∉ s.toPop) (hfid : fid ≠ -1) :
    (fingerUpWalk c x y fid (p :: l') s).2.zoneFingerId
      = (if s.zoneFingerId = fid then -1 else s.zoneFingerId) ∧
    (fingerUpWalk c x y fid (p :: l') s).2.panelFingerId
      = (if s.panelFingerId = fid ∧
            ((if s.zoneFingerId = fid then c.zoneMouseUp p x y else false)
              || c.fingerUp p x y fid) = false
         then -1 else s.panelFingerId) := by
  have hneg : (-1 : Int) ≠ fid := fun h => hfid h.symm
  simp only [fingerUpWalk]
  rw [if_neg hmem]
  by_cases hz : s.zoneFingerId = fid
  · by_cases hzu : c.zoneMouseUp p x y = true
    · have hstep : fingerUpStep c x y fid p s
          = (true, { s with zoneFingerId := -1 }) := by
        simp [fingerUpStep, hz, hzu]
      rw [hstep]
      by_cases hp : s.panelFingerId = fid <;> simp [hz, hzu, hp]
    · have hzu' : c.zoneMouseUp p x y = false := by
        simpa using hzu
      by_cases hfu : c.fingerUp p x y fid = true
      · have hstep : fingerUpStep c x y fid p s
            = (true, { s with zoneFingerId := -1 }) := by
          simp [fingerUpStep, hz, hzu', hfu]
        rw [hstep]
        by_cases hp : s.panelFingerId = fid <;> simp [hz, hzu', hfu, hp]
      · have hfu' : c.fingerUp p x y fid = false := by
          simpa using hfu
        by_cases hp : s.panelFingerId = fid
        · have hstep : fingerUpStep c x y fid p s
              = (c.release p x y,
                 { s with zoneFingerId := -1, panelFingerId := -1 }) := by
            simp [fingerUpStep, hz, hzu', hfu', hp]
          rw [hstep]
          have hpres := fingerUpWalk_not_owner c x y fid l'
            { s with zoneFingerId := -1, panelFingerId := -1 } hneg hneg
          cases hrel : c.release p x y with
          | true => simp [hz, hzu', hfu', hp]
          | false =>
            cases htr : c.trapAllEvents p with
            | true => simp [hz, hzu', hfu', hp, htr]
            | false =>
              simp only [hrel, htr]
              simpa [hz, hzu', hfu', hp] using hpres
        · have hstep : fingerUpStep c x y fid p s
              = (false, { s with zoneFingerId := -1 }) := by
            simp [fingerUpStep, hz, hzu', hfu', hp]
          rw [hstep]
          have hpres := fingerUpWalk_not_owner c x y fid l'
            { s with zoneFingerId := -1 } hneg (by simpa using hp)
          cases htr : c.trapAllEvents p with
          | true => simp [hz, hzu', hfu', hp, htr]
          | false =>
            simp only [htr]
            simpa [hz, hzu', hfu', hp] using hpres
  · by_cases hfu : c.fingerUp p x y fid = true
    · have hstep : fingerUpStep c x y fid p s = (true, s) := by
        simp [fingerUpStep, hz, hfu]
      rw [hstep]
      by_cases hp : s.panelFingerId = fid <;> simp [hz, hfu, hp]
    · have hfu' : c.fingerUp p x y fid = false := by
        simpa using hfu
      by_cases hp : s.panelFingerId = fid
      · have hstep : fingerUpStep c x y fid p s
            = (c.release p x y, { s with panelFingerId := -1 }) := by
          simp [fingerUpStep, hz, hfu', hp]
        rw [hstep]
        have hpres := fingerUpWalk_not_owner c x y fid l'
          { s with panelFingerId := -1 } (by simpa using hz) hneg
        cases hrel : c.release p x y with
        | true => simp [hz, hfu', hp]
        | false =>
          cases htr : c.trapAllEvents p with
          | true => simp [hz, hfu', hp, htr]
          | false =>
            simp only [hrel, htr]
            simpa [hz, hfu', hp] using hpres
      · have hstep : fingerUpStep c x y fid p s = (false, s) := by
          simp [fingerUpStep, hz, hfu', hp]
        rw [hstep]
        have hpres := fingerUpWalk_not_owner c x y fid l' s
          (by simpa using hz) (by simpa using hp)
        cases htr : c.trapAllEvents p with
        | true => simp [hz, hfu', hp, htr]
        | false =>
          simp only [htr]
          simpa [hz, hfu', hp] using hpres

/-- C4 touch oracle: every callback declines except the finger-up
notification, which handles the event. -/
def cC4 : TouchCalls where
  zoneMouseDown := fun _ _ _ => false
  hover := fun _ _ _ => false
  fingerDown := fun _ _ _ _ => false
  click := fun _ _ _ _ => false
  zoneMouseUp := fun _ _ _ => false
  fingerUp := fun _ _ _ _ => true
  release := fun _ _ _ => false
  trapAllEvents := fun _ => false

/-- C4 state: one panel, finger 7 owns the drag. -/
def sC4 : UIState := { baseState with stack := [0], panelFingerId := 7 }

/-- C4 counterexample: finger 7 owns the drag; on its touch-up the
panel's FingerUp handles the event, so the release branch is never
reached and the drag-owning finger stays 7 instead of being cleared to
none — the clearing is not unconditional on the up-event. -/
theorem fingerup_stuck_drag_cex :
    (HandleFingerUp cC4 0 0 7 sC4).1 = true ∧
    (HandleFingerUp cC4 0 0 7 sC4).2.panelFingerId = 7 ∧
    ((7 : Int) = -1 → False) := by
  decide

/-- C4 (amended): for a touch-up carrying finger `fid ≠ -1` dispatched
through Handle, where at least one panel takes a turn (the first being
`p₀`): if `fid` was the remembered zone-owning finger it is cleared to
none, regardless of every callback result; if `fid` was the remembered
drag-owning finger, it is cleared to none if and only if the
zone-release attempt and the finger-up notification at `p₀` both left
the event unhandled (the clear is then independent of the Release
result); when one of them handles the event, the drag-owning finger is
left as it was. -/
theorem fingerup_clears_owners (c : TouchCalls) (x y fid : Int)
    (s : UIState) (p₀ : PanelId) (rest : List PanelId) (hfid : fid ≠ -1)
    (hfirst : s.stack.reverse.filter (fun q => !decide (q ∈ s.toPop))
      = p₀ :: rest) :
    (s.zoneFingerId = fid →
      (HandleFingerUp c x y fid s).2.zoneFingerId = -1) ∧
    (s.panelFingerId = fid →
      ((HandleFingerUp c x y fid s).2.panelFingerId = -1 ↔
        ((if s.zoneFingerId = fid then c.zoneMouseUp p₀ x y else false)
          || c.fingerUp p₀ x y fid) = false)) := by
  have hneg : (-1 : Int) ≠ fid := fun h => hfid h.symm
  have main : ∀ l : List PanelId,
      l.filter (fun q => !decide (q ∈ s.toPop)) = p₀ :: rest →
      (s.zoneFingerId = fid →
        (fingerUpWalk c x y fid l s).2.zoneFingerId = -1) ∧
      (s.panelFingerId = fid →
        ((fingerUpWalk c x y fid l s).2.panelFingerId = -1 ↔
          ((if s.zoneFingerId = fid then c.zoneMouseUp p₀ x y else false)
            || c.fingerUp p₀ x y fid) = false)) := by
    intro l
    induction l with
    | nil => intro h; simp at h
    | cons p l' ih =>
      intro h
      by_cases hmem : p ∈ s.toPop
      · have hfilter : l'.filter (fun q => !decide (q ∈ s.toPop))
            = p₀ :: rest := by
          simpa [List.filter_cons, hmem] using h
        have := ih hfilter
        simpa [fingerUpWalk, hmem] using this
      · have hp₀ : p = p₀ := by
          have h' := h
          simp only [List.filter_cons, hmem, decide_False, Bool.not_false,
            decide_True, if_true] at h'
          exact (List.cons_eq_cons.mp (by simpa [hmem] using h)).1
        subst hp₀
        have hcf := fingerUpWalk_cons_first c x y fid p l' s hmem hfid
        constructor
        · intro hz
          rw [hcf.1, if_pos hz]
        · intro hp
          rw [hcf.2]
          by_cases hh : ((if s.zoneFingerId = fid then c.zoneMouseUp p x y
              else false) || c.fingerUp p x y fid) = false
          · rw [if_pos ⟨hp, hh⟩]
            exact Iff.intro (fun _ => hh) (fun _ => rfl)
          · rw [if_neg (fun hc => hh hc.2), hp]
            constructor
            · intro hcon
              exact absurd hcon hfid
            · intro hcon
              exact absurd hcon hh
  constructor
  · intro hz
    have := (main s.stack.reverse hfirst).1 hz
    simpa [HandleFingerUp, PushOrPop] using this
  · intro hp
    have := (main s.stack.reverse hfirst).2 hp
    simpa [HandleFingerUp, PushOrPop] using this

/-- C4 touch oracle for the witness: every callback declines. -/
def cC4w : TouchCalls where
  zoneMouseDown := fun _ _ _ => false
  hover := fun _ _ _ => false
  fingerDown := fun _ _ _ _ => false
  click := fun _ _ _ _ => false
  zoneMouseUp := fun _ _ _ => false
  fingerUp := fun _ _ _ _ => false
  release := fun _ _ _ => false
  trapAllEvents := fun _ => false

/-- C4 state for the witness: one panel, finger 7 owns both the zone
interaction and the drag. -/
def sC4w : UIState :=
  { baseState with stack := [0], zoneFingerId := 7, panelFingerId := 7 }

/-- C4 witness: the amended statement evaluated with finger 7 owning
both the zone interaction and the drag, all callbacks declining: both
owners are cleared to none. -/
theorem fingerup_clears_owners_witness :
    (HandleFingerUp cC4w 0 0 7 sC4w).2.zoneFingerId = -1 ∧
    (HandleFingerUp cC4w 0 0 7 sC4w).2.panelFingerId = -1 :=
  ⟨(fingerup_clears_owners cC4w 0 0 7 sC4w 0 [] (by decide) (by decide)).1
      rfl,
    ((fingerup_clears_owners cC4w 0 0 7 sC4w 0 [] (by decide)
      (by decide)).2 rfl).mpr (by decide)⟩

theorem usub32_of_le (a b : Nat) (hba : b ≤ a) (ha : a < 2 ^ 32) :
    usub32 a b = a - b := by
  have h32 : (2 : Nat) ^ 32 = 4294967296 := by norm_num
  simp only [usub32, h32]
  rw [h32] at ha
  omega

/-- On a one-panel stack whose zone and finger-down callbacks decline,
a touch-down reaches the generic-click fallback of that panel: exactly
one click is delivered, carrying the fallback click count, and the
last-tap time becomes `now` whatever the click result. -/
theorem handleFingerDown_single (c : TouchCalls) (x y fid : Int)
    (now : Nat) (s : UIState) (p₀ : PanelId)
    (hstack : s.stack = [p₀]) (hpush : s.toPush = []) (hpop : s.toPop = [])
    (hz : c.zoneMouseDown p₀ x y = false)
    (hf : c.fingerDown p₀ x y fid = false) :
    (HandleFingerDown c x y fid now s).2.2
      = [fallbackClicks s.lastTap now] ∧
    (HandleFingerDown c x y fid now s).2.1.stack = [p₀] ∧
    (HandleFingerDown c x y fid now s).2.1.toPush = [] ∧
    (HandleFingerDown c x y fid now s).2.1.toPop = [] ∧
    (HandleFingerDown c x y fid now s).2.1.lastTap = now := by
  cases hcl : c.click p₀ x y (fallbackClicks s.lastTap now) with
  | true =>
    simp [HandleFingerDown, fingerDownWalk, fingerDownStep, PushOrPop,
      hstack, hpush, hpop, hz, hf, hcl, eraseFirst]
  | false =>
    cases htr : c.trapAllEvents p₀ with
    | true =>
      simp [HandleFingerDown, fingerDownWalk, fingerDownStep, PushOrPop,
        hstack, hpush, hpop, hz, hf, hcl, htr, eraseFirst]
    | false =>
      simp [HandleFingerDown, fingerDownWalk, fingerDownStep, PushOrPop,
        hstack, hpush, hpop, hz, hf, hcl, htr, eraseFirst]

/-- C5 touch oracle: zones and finger-down decline, the generic click
always handles. -/
def cC5 : TouchCalls where
  zoneMouseDown := fun _ _ _ => false
  hover := fun _ _ _ => false
  fingerDown := fun _ _ _ _ => false
  click := fun _ _ _ _ => true
  zoneMouseUp := fun _ _ _ => false
  fingerUp := fun _ _ _ _ => false
  release := fun _ _ _ => false
  trapAllEvents := fun _ => false

/-- C5 state: one panel, last tap at tick 0. -/
def sC5 : UIState := { baseState with stack := [0] }

/-- C5 counterexample: two touch-downs reaching the generic-click
fallback exactly 500 ms apart (ticks 1000 and 1500): the second is
delivered with click count 2, not click count 1 as claimed for events
spaced at least 500 ms apart — the code tests `elapsed > 500`, so the
500 ms boundary falls on the double-tap side. -/
theorem double_tap_boundary_cex :
    (HandleFingerDown cC5 0 0 3 1000 sC5).2.2 = [1] ∧
    (HandleFingerDown cC5 0 0 3 1500
      (HandleFingerDown cC5 0 0 3 1000 sC5).2.1).2.2 = [2] ∧
    1500 - 1000 = 500 ∧ (2 : Nat) ≠ 1 := by
  decide

/-- C5 (amended): for two touch-down events reaching the generic-click
fallback at ticks `t₁` then `t₂` (no tick wrap-around): the first
updates the last-tap timestamp to `t₁` on the fallback path; the
second is delivered with click count 2 when `t₂ - t₁ ≤ 500` ms and
with click count 1 when the two are spaced more than 500 ms apart
(strictly more — at exactly 500 ms the click count is 2). -/
theorem double_tap_spec (c : TouchCalls) (x y fid : Int) (t₁ t₂ : Nat)
    (s : UIState) (p₀ : PanelId)
    (hstack : s.stack = [p₀]) (hpush : s.toPush = []) (hpop : s.toPop = [])
    (hz : c.zoneMouseDown p₀ x y = false)
    (hf : c.fingerDown p₀ x y fid = false)
    (h0 : s.lastTap ≤ t₁) (h12 : t₁ ≤ t₂) (h2 : t₂ < 2 ^ 32) :
    (HandleFingerDown c x y fid t₁ s).2.1.lastTap = t₁ ∧
    (HandleFingerDown c x y fid t₁ s).2.2
      = [if 500 < t₁ - s.lastTap then 1 else 2] ∧
    (HandleFingerDown c x y fid t₂ (HandleFingerDown c x y fid t₁ s).2.1).2.2
      = [if 500 < t₂ - t₁ then 1 else 2] := by
  have h1lt : t₁ < 2 ^ 32 := lt_of_le_of_lt h12 h2
  have r₁ := handleFingerDown_single c x y fid t₁ s p₀ hstack hpush hpop hz hf
  refine ⟨r₁.2.2.2.2, ?_, ?_⟩
  · rw [r₁.1, fallbackClicks, usub32_of_le t₁ s.lastTap h0 h1lt]
  · have r₂ := handleFingerDown_single c x y fid t₂
      (HandleFingerDown c x y fid t₁ s).2.1 p₀
      r₁.2.1 r₁.2.2.1 r₁.2.2.2.1 hz hf
    rw [r₂.1, r₁.2.2.2.2, fallbackClicks, usub32_of_le t₂ t₁ h12 h2]

/-- C5 witness: the amended statement evaluated at ticks 1000 and 1400
(400 ms apart) on a one-panel stack: the last tap becomes 1000 and the
second touch-down is delivered with click count 2. -/
theorem double_tap_spec_witness :
    (HandleFingerDown cC5 0 0 3 1000 sC5).2.1.lastTap = 1000 ∧
    (HandleFingerDown cC5 0 0 3 1400
      (HandleFingerDown cC5 0 0 3 1000 sC5).2.1).2.2 = [2] := by
  have h := double_tap_spec cC5 0 0 3 1000 1400 sC5 0 rfl rfl rfl rfl rfl
    (by decide) (by decide) (by norm_num)
  exact ⟨h.1, by simpa using h.2.2⟩

end EndlessUI
